import Mathlib

/-!
Shallow embedding of the `file_code_tagger` repository core:
the add-files pipeline orchestration (`pipeline/add_files_pipeline.py`),
the tag/label engine, extractor selection
(`text_extraction/basic_extraction.py`), text normalization
(`text_extraction/extraction_utils.py`), the `FileLocation.local_filepath`
helper and the `PathPattern` exclusion policy (`db/models.py`).

Database state is threaded explicitly: the SQLAlchemy session's set of
`FileTagLabel` rows becomes a `List FileTagLabel` value, inserts append to
it, and queries scan it (faithful to the session because `autoflush` makes
pending inserts visible to subsequent queries in the same transaction).
-/

/-! ## Tag taxonomy and label engine (`db/models.py`, `pipeline/add_files_pipeline.py`) -/

/-- `FilingTag` from `db/models.py`: a taxonomy node with a label and an
optional parent (the self-referencing `parent_label` foreign key).  The ORM
relationship presents the parent as an object reference; an inductive value
encodes exactly the finite acyclic parent chains the spec's invariant
("no cycles") guarantees.  `description`, `importance_rank` and
`confidence_floor` are not read by the label engine and are omitted. -/
inductive FilingTag : Type where
  | mk (label : String) (parent : Option FilingTag)
deriving Repr

/-- Label of a taxonomy node. -/
def FilingTag.label : FilingTag → String
  | .mk l _ => l

/-- Parent of a taxonomy node. -/
def FilingTag.parent : FilingTag → Option FilingTag
  | .mk _ p => p

/-- `File` from `db/models.py`: only the columns the label engine reads
(`id` and `hash`). -/
structure File where
  id : Nat
  hash : String
deriving DecidableEq, Repr

/-- `FileTagLabel` from `db/models.py`: a (file, tag) assignment row with
`is_primary`, `label_source` (the `split` column keeps its default and is
omitted). -/
structure FileTagLabel where
  file_id : Nat
  file_hash : String
  tag : String
  is_primary : Bool
  label_source : String
deriving DecidableEq, Repr

/-- The existence check of `label_file_using_tag`:
`db_session.query(FileTagLabel).filter_by(file_id=..., tag=...).first()`
is non-None, i.e. some row matches both filters. -/
def labelRowExists (db : List FileTagLabel) (fid : Nat) (lbl : String) : Bool :=
  db.any (fun r => r.file_id == fid && r.tag == lbl)

/-- `label_file_using_tag` from `pipeline/add_files_pipeline.py`, the walk
from `some_tag` up the parent chain.  At each node: query for an existing
(file_id, tag) row; if present, move to the parent; otherwise insert a
`FileTagLabel` with `is_primary = (current_tag.parent is None)` and move to
the parent.  The session state is threaded as the row list; the Python
function returns the last inserted record, which is not part of the
database effect and is dropped here.  The `isinstance(str)` entry branch
resolves a label string to a `FilingTag` before this walk and is outside
this definition. -/
def label_file_using_tag (db : List FileTagLabel) (file_obj : File)
    (some_tag : FilingTag) (label_source : String) : List FileTagLabel :=
  match some_tag with
  | .mk lbl par =>
    if labelRowExists db file_obj.id lbl then
      match par with
      | none => db
      | some p => label_file_using_tag db file_obj p label_source
    else
      let record : FileTagLabel :=
        ⟨file_obj.id, file_obj.hash, lbl, par.isNone, label_source⟩
      match par with
      | none => db ++ [record]
      | some p => label_file_using_tag (db ++ [record]) file_obj p label_source

/-- The labels on the walk from a tag up to its root, most specific first. -/
def tagChain : FilingTag → List String
  | .mk l none => [l]
  | .mk l (some p) => l :: tagChain p

/-- The invariant of §3 of the spec: at most one `FileTagLabel` row per
(file, tag) pair. -/
def atMostOnePerPair (db : List FileTagLabel) : Prop :=
  ∀ fid lbl, (db.filter (fun r => r.file_id == fid && r.tag == lbl)).length ≤ 1

/-! ### Label engine lemmas -/

theorem labelRowExists_iff (db : List FileTagLabel) (fid : Nat) (lbl : String) :
    labelRowExists db fid lbl = true ↔ ∃ r ∈ db, r.file_id = fid ∧ r.tag = lbl := by
  simp [labelRowExists, List.any_eq_true]

theorem labelRowExists_append_left (db ext : List FileTagLabel) (fid : Nat) (lbl : String)
    (h : labelRowExists db fid lbl = true) :
    labelRowExists (db ++ ext) fid lbl = true := by
  simp only [labelRowExists, List.any_append, Bool.or_eq_true]
  exact Or.inl h

theorem label_mono (db : List FileTagLabel) (f : File) (t : FilingTag) (s : String) :
    ∃ ext, label_file_using_tag db f t s = db ++ ext := by
  match t with
  | .mk l none =>
    rw [label_file_using_tag]
    by_cases h : labelRowExists db f.id l
    · simp [h]
    · simp [h]
  | .mk l (some p) =>
    rw [label_file_using_tag]
    by_cases h : labelRowExists db f.id l
    · simp only [h, if_true]
      exact label_mono db f p s
    · simp only [h, if_false, Bool.false_eq_true, Option.isNone_some]
      obtain ⟨ext, hext⟩ := label_mono (db ++ [⟨f.id, f.hash, l, false, s⟩]) f p s
      exact ⟨_, by rw [hext, List.append_assoc]⟩

theorem label_exists_after (db : List FileTagLabel) (f : File) (t : FilingTag) (s : String) :
    ∀ l ∈ tagChain t, labelRowExists (label_file_using_tag db f t s) f.id l = true := by
  match t with
  | .mk l0 none =>
    intro l hl
    simp only [tagChain, List.mem_singleton] at hl
    subst hl
    rw [label_file_using_tag]
    by_cases h : labelRowExists db f.id l
    · simp [h]
    · simp only [h, if_false, Bool.false_eq_true, Option.isNone_none]
      simp [labelRowExists, List.any_append]
  | .mk l0 (some p) =>
    intro l hl
    simp only [tagChain, List.mem_cons] at hl
    rw [label_file_using_tag]
    by_cases h : labelRowExists db f.id l0
    · simp only [h, if_true]
      rcases hl with hl | hl
      · subst hl
        obtain ⟨ext, hext⟩ := label_mono db f p s
        rw [hext]
        exact labelRowExists_append_left db ext f.id l h
      · exact label_exists_after db f p s l hl
    · simp only [h, if_false, Bool.false_eq_true, Option.isNone_some]
      rcases hl with hl | hl
      · subst hl
        obtain ⟨ext, hext⟩ := label_mono (db ++ [⟨f.id, f.hash, l, false, s⟩]) f p s
        rw [hext]
        apply labelRowExists_append_left
        simp [labelRowExists, List.any_append]
      · exact label_exists_after (db ++ [⟨f.id, f.hash, l0, false, s⟩]) f p s l hl

theorem label_noop (db : List FileTagLabel) (f : File) (t : FilingTag) (s : String)
    (h : ∀ l ∈ tagChain t, labelRowExists db f.id l = true) :
    label_file_using_tag db f t s = db := by
  match t with
  | .mk l0 none =>
    rw [label_file_using_tag]
    have h0 : labelRowExists db f.id l0 = true := h l0 (by simp [tagChain])
    simp [h0]
  | .mk l0 (some p) =>
    rw [label_file_using_tag]
    have h0 : labelRowExists db f.id l0 = true := h l0 (by simp [tagChain])
    simp only [h0, if_true]
    exact label_noop db f p s (fun l hl => h l (by simp [tagChain, hl]))

theorem atMostOne_insert (db : List FileTagLabel) (r : FileTagLabel)
    (h : atMostOnePerPair db) (hnot : labelRowExists db r.file_id r.tag = false) :
    atMostOnePerPair (db ++ [r]) := by
  intro fid lbl
  rw [List.filter_append]
  by_cases hr : (r.file_id == fid && r.tag == lbl) = true
  · have hfid : r.file_id = fid := by
      have := hr
      simp only [Bool.and_eq_true, beq_iff_eq] at this
      exact this.1
    have hlbl : r.tag = lbl := by
      have := hr
      simp only [Bool.and_eq_true, beq_iff_eq] at this
      exact this.2
    have hempty : db.filter (fun x => x.file_id == fid && x.tag == lbl) = [] := by
      rw [List.filter_eq_nil_iff]
      intro a ha
      intro hcontra
      have hx : labelRowExists db r.file_id r.tag = true := by
        rw [labelRowExists_iff]
        refine ⟨a, ha, ?_, ?_⟩
        · have := hcontra
          simp only [Bool.and_eq_true, beq_iff_eq] at this
          rw [this.1, hfid]
        · have := hcontra
          simp only [Bool.and_eq_true, beq_iff_eq] at this
          rw [this.2, hlbl]
      rw [hx] at hnot
      exact Bool.true_eq_false.mp hnot
    rw [hempty]
    simp [hr]
  · have : List.filter (fun x => x.file_id == fid && x.tag == lbl) [r] = [] := by
      simp [List.filter, hr]
    rw [this, List.append_nil]
    exact h fid lbl

theorem label_atMostOne (db : List FileTagLabel) (f : File) (t : FilingTag) (s : String)
    (h : atMostOnePerPair db) :
    atMostOnePerPair (label_file_using_tag db f t s) := by
  match t with
  | .mk l0 none =>
    rw [label_file_using_tag]
    by_cases hx : labelRowExists db f.id l0
    · simpa [hx] using h
    · simp only [hx, if_false, Bool.false_eq_true, Option.isNone_none]
      exact atMostOne_insert db _ h (by simpa using Bool.of_not_eq_true hx)
  | .mk l0 (some p) =>
    rw [label_file_using_tag]
    by_cases hx : labelRowExists db f.id l0
    · simp only [hx, if_true]
      exact label_atMostOne db f p s h
    · simp only [hx, if_false, Bool.false_eq_true, Option.isNone_some]
      exact label_atMostOne _ f p s
        (atMostOne_insert db _ h (by simpa using Bool.of_not_eq_true hx))

/-! ### Claims about the label engine -/

/-- C2: the claim says every inserted `TagLabel` is non-primary except the one
for the originally requested tag, which is primary, regardless of position.
The code instead sets `is_primary = (current_tag.parent is None)`.  Evaluating
`label_file_using_tag` at the failing input — file id 1, requested tag
"F7.1" whose parent "F7" is a root, empty label table — the row inserted for
the requested tag "F7.1" has `is_primary = false` and the row for its root
ancestor "F7" has `is_primary = true`, the opposite of the claim. -/
theorem c2_is_primary_tied_to_root_not_requested_tag :
    label_file_using_tag [] ⟨1, "deadbeef"⟩
        (.mk "F7.1" (some (.mk "F7" none))) "rule" =
      [⟨1, "deadbeef", "F7.1", false, "rule"⟩,
       ⟨1, "deadbeef", "F7", true, "rule"⟩] := by
  decide

/-- C3: after `label_file_using_tag` completes on a tag with an acyclic parent
chain (enforced by the inductive `FilingTag`), a `FileTagLabel` row exists for
the requested tag and every ancestor up to the root, and — existence being
checked before each insert — the table still has at most one row per
(file, tag) pair whenever it did before the call. -/
theorem c3_ancestor_completeness_and_row_uniqueness
    (db : List FileTagLabel) (f : File) (t : FilingTag) (s : String)
    (hdb : atMostOnePerPair db) :
    (∀ l ∈ tagChain t,
        ∃ r ∈ label_file_using_tag db f t s, r.file_id = f.id ∧ r.tag = l) ∧
    atMostOnePerPair (label_file_using_tag db f t s) := by
  constructor
  · intro l hl
    have h := label_exists_after db f t s l hl
    rw [labelRowExists_iff] at h
    exact h
  · exact label_atMostOne db f t s hdb

/-- Witness for C3 at a concrete input: file id 1, tag "F7.1" with root parent
"F7", empty initial table. -/
theorem c3_ancestor_completeness_witness :
    (∀ l ∈ tagChain (.mk "F7.1" (some (.mk "F7" none))),
        ∃ r ∈ label_file_using_tag [] ⟨1, "deadbeef"⟩
            (.mk "F7.1" (some (.mk "F7" none))) "rule",
          r.file_id = (1 : Nat) ∧ r.tag = l) ∧
    atMostOnePerPair (label_file_using_tag [] ⟨1, "deadbeef"⟩
        (.mk "F7.1" (some (.mk "F7" none))) "rule") :=
  c3_ancestor_completeness_and_row_uniqueness [] ⟨1, "deadbeef"⟩
    (.mk "F7.1" (some (.mk "F7" none))) "rule"
    (by intro fid lbl; simp)

/-- C4: applying `label_file_using_tag` twice for the same file and tag leaves
exactly the same rows as applying it once — the second call inserts nothing,
whatever `label_source` it is given. -/
theorem c4_label_application_idempotent
    (db : List FileTagLabel) (f : File) (t : FilingTag) (s s2 : String) :
    label_file_using_tag (label_file_using_tag db f t s) f t s2 =
      label_file_using_tag db f t s :=
  label_noop _ f t s2 (label_exists_after db f t s)

/-! ## Extractor selection (`text_extraction/basic_extraction.py`) -/

/-- An extraction capability as the selection logic sees it: the class name
and the `file_extensions` class variable.  (The extraction behaviour itself
is an external effect, modelled in the pipeline section as an oracle.) -/
structure FileTextExtractor where
  name : String
  file_extensions : List String
deriving DecidableEq, Repr

/-- `PurePosixPath(p).name`: drop trailing slashes, then take everything
after the last slash. -/
def pathName (s : List Char) : List Char :=
  (((s.reverse.dropWhile (fun c => c = '/')).takeWhile (fun c => c ≠ '/')).reverse)

/-- `Path(p).suffix` as computed by CPython's `pathlib`: with
`i = name.rfind(".")`, return `name[i:]` when `0 < i < len(name) - 1`, else
the empty string.  Here `k` is the run of non-dot characters at the end of
the name, so `i = name.length - k.length - 1`. -/
def pathSuffix (s : List Char) : List Char :=
  let name := pathName s
  let k := name.reverse.takeWhile (fun c => c ≠ '.')
  if k.length = name.length then []
  else if k.length = 0 then []
  else if k.length + 1 = name.length then []
  else '.' :: k.reverse

/-- The candidate extension used by `get_extractor_for_file`:
`Path(file_path).suffix.lower().lstrip(".")`.  Lowercasing is modelled with
`Char.toLower` (ASCII, which covers every declared extension). -/
def fileExtensionOf (file_path : String) : String :=
  String.mk (((pathSuffix file_path.data).map Char.toLower).dropWhile (fun c => c = '.'))

/-- `get_extractor_for_file` from `text_extraction/basic_extraction.py`:
linear scan over the extractor list, returning the first one whose
`file_extensions` contain the candidate extension, and `None` when no
extractor matches. -/
def get_extractor_for_file (file_path : String) :
    List FileTextExtractor → Option FileTextExtractor
  | [] => none
  | extractor :: rest =>
    if fileExtensionOf file_path ∈ extractor.file_extensions then some extractor
    else get_extractor_for_file file_path rest

/-- The caller's fallback in `_run_file_pipeline`:
`extractor(temp_fp) if extractor else tika_extractor(temp_fp)` — the
selected extractor when one exists, the Tika extractor otherwise. -/
def pipelineExtractorChoice (file_path : String)
    (extractors : List FileTextExtractor) (tika : FileTextExtractor) :
    FileTextExtractor :=
  match get_extractor_for_file file_path extractors with
  | some e => e
  | none => tika

/-- C7: extractor selection returns the first extractor in the list whose
declared extensions contain the file's lowercased dot-stripped extension,
returns `none` exactly when no extractor in the list declares that
extension, and in that case the pipeline falls back to the Tika extractor.
(Determinism on equal inputs is immediate: the selection is a pure
function of its arguments.) -/
theorem c7_extractor_selection_first_match (file_path : String)
    (extractors : List FileTextExtractor) (tika : FileTextExtractor) :
    (∀ e, get_extractor_for_file file_path extractors = some e →
        fileExtensionOf file_path ∈ e.file_extensions ∧
        ∃ pre post, extractors = pre ++ e :: post ∧
          ∀ e2 ∈ pre, fileExtensionOf file_path ∉ e2.file_extensions) ∧
    (get_extractor_for_file file_path extractors = none ↔
        ∀ e ∈ extractors, fileExtensionOf file_path ∉ e.file_extensions) ∧
    (get_extractor_for_file file_path extractors = none →
        pipelineExtractorChoice file_path extractors tika = tika) := by
  refine ⟨?_, ?_, ?_⟩
  · intro e he
    induction extractors with
    | nil => simp [get_extractor_for_file] at he
    | cons e0 rest ih =>
      rw [get_extractor_for_file] at he
      by_cases h0 : fileExtensionOf file_path ∈ e0.file_extensions
      · simp only [h0, if_true, Option.some.injEq] at he
        subst he
        exact ⟨h0, [], rest, rfl, by simp⟩
      · simp only [h0, if_false] at he
        obtain ⟨hmem, pre, post, hsplit, hpre⟩ := ih he
        refine ⟨hmem, e0 :: pre, post, by rw [hsplit]; rfl, ?_⟩
        intro e2 he2
        rcases List.mem_cons.mp he2 with h | h
        · subst h; exact h0
        · exact hpre e2 h
  · induction extractors with
    | nil => simp [get_extractor_for_file]
    | cons e0 rest ih =>
      rw [get_extractor_for_file]
      by_cases h0 : fileExtensionOf file_path ∈ e0.file_extensions
      · simp [h0]
      · simp only [h0, if_false]
        rw [ih]
        constructor
        · intro h e he
          rcases List.mem_cons.mp he with h2 | h2
          · subst h2; exact h0
          · exact h e h2
        · intro h e he
          exact h e (List.mem_cons_of_mem e0 he)
  · intro h
    rw [pipelineExtractorChoice, h]

/-- Witness for C7: `"/tmp/report.PDF"` yields extension `"pdf"` and selects
the PDF extractor placed first; `"/tmp/archive.zzz"` matches no declared
extension, so selection yields `none` and the caller falls back to Tika. -/
theorem c7_extractor_selection_witness :
    (fileExtensionOf "/tmp/report.PDF" ∈
        (FileTextExtractor.mk "PDFTextExtractor" ["pdf"]).file_extensions ∧
      ∃ pre post,
        [FileTextExtractor.mk "PDFTextExtractor" ["pdf"],
         FileTextExtractor.mk "TextFileTextExtractor" ["txt", "md"]] =
          pre ++ FileTextExtractor.mk "PDFTextExtractor" ["pdf"] :: post ∧
        ∀ e2 ∈ pre, fileExtensionOf "/tmp/report.PDF" ∉ e2.file_extensions) ∧
    pipelineExtractorChoice "/tmp/archive.zzz"
        [FileTextExtractor.mk "PDFTextExtractor" ["pdf"],
         FileTextExtractor.mk "TextFileTextExtractor" ["txt", "md"]]
        (FileTextExtractor.mk "TikaTextExtractor" ["pdf", "txt"]) =
      FileTextExtractor.mk "TikaTextExtractor" ["pdf", "txt"] := by
  refine ⟨(c7_extractor_selection_first_match "/tmp/report.PDF"
      [FileTextExtractor.mk "PDFTextExtractor" ["pdf"],
       FileTextExtractor.mk "TextFileTextExtractor" ["txt", "md"]]
      (FileTextExtractor.mk "TikaTextExtractor" ["pdf", "txt"])).1
      (FileTextExtractor.mk "PDFTextExtractor" ["pdf"]) (by decide),
    (c7_extractor_selection_first_match "/tmp/archive.zzz"
      [FileTextExtractor.mk "PDFTextExtractor" ["pdf"],
       FileTextExtractor.mk "TextFileTextExtractor" ["txt", "md"]]
      (FileTextExtractor.mk "TikaTextExtractor" ["pdf", "txt"])).2.2 (by decide)⟩

/-! ## Text normalization (`text_extraction/extraction_utils.py` and the
spec's §4.5 normalization sequence)

`normalize_whitespace` is translated from the source.  The other three
functions of the sequence (`common_char_replacements`, `strip_diacritics`,
`normalize_unicode`) are imported by `pipeline/add_files_pipeline.py` from
`text_extraction.extraction_utils` but their definitions are not part of
the source tree; they are modelled from the spec below.  All string
functions operate on `String.data` (`List Char`), matching Python's
code-point view of `str`. -/

/-- Python's `str` whitespace set, as used by `str.split()` with no
arguments: 0x09–0x0D, 0x1C–0x1F, space, NEL, NBSP, Ogham space mark,
the 0x2000–0x200A range, line/paragraph separator, narrow NBSP,
medium mathematical space and ideographic space. -/
def isPySpace (c : Char) : Bool :=
  (0x9 ≤ c.toNat && c.toNat ≤ 0xD) || c.toNat == 0x20 ||
  (0x1C ≤ c.toNat && c.toNat ≤ 0x1F) || c.toNat == 0x85 || c.toNat == 0xA0 ||
  c.toNat == 0x1680 || (0x2000 ≤ c.toNat && c.toNat ≤ 0x200A) ||
  c.toNat == 0x2028 || c.toNat == 0x2029 || c.toNat == 0x202F ||
  c.toNat == 0x205F || c.toNat == 0x3000

/-- `text.split()`: maximal runs of non-whitespace characters, empty runs
discarded.  `acc` holds the current run reversed. -/
def pySplitAux : List Char → List Char → List (List Char)
  | [], acc => if acc = [] then [] else [acc.reverse]
  | c :: cs, acc =>
    if isPySpace c then
      if acc = [] then pySplitAux cs []
      else acc.reverse :: pySplitAux cs []
    else pySplitAux cs (c :: acc)

/-- `text.split()` on the code-point list. -/
def pySplit (s : List Char) : List (List Char) :=
  pySplitAux s []

/-- `" ".join(tokens)` on code-point lists. -/
def spaceJoin : List (List Char) → List Char
  | [] => []
  | [t] => t
  | t :: t2 :: ts => t ++ ' ' :: spaceJoin (t2 :: ts)

/-- `normalize_whitespace` from `text_extraction/extraction_utils.py`:
`" ".join(text.split())`. -/
def normalize_whitespace (text : String) : String :=
  String.mk (spaceJoin (pySplit text.data))

/-- Modelled from the spec: `common_char_replacements` is not in the source
tree (only imported by the pipeline); §4.5 describes it as common-character
substitution, e.g. smart quotes to ASCII.  Modelled as a code-point map
sending curly double quotes to `"` and en/em dashes to `-`. -/
def commonCharReplacement (c : Char) : Char :=
  if c = Char.ofNat 0x201C then '"'
  else if c = Char.ofNat 0x201D then '"'
  else if c = Char.ofNat 0x2013 then '-'
  else if c = Char.ofNat 0x2014 then '-'
  else c

/-- Modelled from the spec: the string-level `common_char_replacements`. -/
def common_char_replacements (text : String) : String :=
  String.mk (text.data.map commonCharReplacement)

/-- Combining diacritical marks block U+0300–U+036F. -/
def isCombiningMark (c : Char) : Bool :=
  0x300 ≤ c.toNat && c.toNat ≤ 0x36F

/-- Modelled from the spec: the per-code-point part of `strip_diacritics`
(not in the source tree): map precomposed accented Latin letters to their
base letter. -/
def baseChar (c : Char) : Char :=
  if c = Char.ofNat 0xE1 ∨ c = Char.ofNat 0xE0 ∨ c = Char.ofNat 0xE2 ∨
      c = Char.ofNat 0xE4 ∨ c = Char.ofNat 0xE3 then 'a'
  else if c = Char.ofNat 0xE9 ∨ c = Char.ofNat 0xE8 ∨ c = Char.ofNat 0xEA ∨
      c = Char.ofNat 0xEB then 'e'
  else if c = Char.ofNat 0xED ∨ c = Char.ofNat 0xEC ∨ c = Char.ofNat 0xEE ∨
      c = Char.ofNat 0xEF then 'i'
  else if c = Char.ofNat 0xF3 ∨ c = Char.ofNat 0xF2 ∨ c = Char.ofNat 0xF4 ∨
      c = Char.ofNat 0xF6 ∨ c = Char.ofNat 0xF5 then 'o'
  else if c = Char.ofNat 0xFA ∨ c = Char.ofNat 0xF9 ∨ c = Char.ofNat 0xFB ∨
      c = Char.ofNat 0xFC then 'u'
  else if c = Char.ofNat 0xF1 then 'n'
  else if c = Char.ofNat 0xE7 then 'c'
  else c

/-- Modelled from the spec: `strip_diacritics` (not in the source tree):
drop combining marks and map precomposed accented letters to base
letters. -/
def strip_diacritics (text : String) : String :=
  String.mk ((text.data.filter (fun c => !isCombiningMark c)).map baseChar)

/-- Modelled from the spec: the canonical composition table used by
`normalize_unicode` (NFC): a base letter followed by a combining acute,
grave, circumflex or diaeresis composes into the precomposed letter. -/
def composePair (c m : Char) : Option Char :=
  if c = 'a' ∧ m = Char.ofNat 0x301 then some (Char.ofNat 0xE1)
  else if c = 'a' ∧ m = Char.ofNat 0x300 then some (Char.ofNat 0xE0)
  else if c = 'e' ∧ m = Char.ofNat 0x301 then some (Char.ofNat 0xE9)
  else if c = 'e' ∧ m = Char.ofNat 0x300 then some (Char.ofNat 0xE8)
  else if c = 'i' ∧ m = Char.ofNat 0x301 then some (Char.ofNat 0xED)
  else if c = 'o' ∧ m = Char.ofNat 0x301 then some (Char.ofNat 0xF3)
  else if c = 'u' ∧ m = Char.ofNat 0x301 then some (Char.ofNat 0xFA)
  else if c = 'n' ∧ m = Char.ofNat 0x303 then some (Char.ofNat 0xF1)
  else none

/-- Modelled from the spec: one NFC composition step — `c` is the pending
character, composed with the next character whenever the pair is in the
canonical composition table, the composed form re-examined against the
following character. -/
def nfcAux : Char → List Char → List Char
  | c, [] => [c]
  | c, m :: rest =>
    match composePair c m with
    | some d => nfcAux d rest
    | none => c :: nfcAux m rest

/-- Modelled from the spec: NFC composition pass over a code-point list —
each composable (base, mark) pair is replaced by its precomposed form. -/
def nfcChars : List Char → List Char
  | [] => []
  | c :: rest => nfcAux c rest

/-- Modelled from the spec: `normalize_unicode` (not in the source tree):
Unicode normalization to canonical composed form. -/
def normalize_unicode (text : String) : String :=
  String.mk (nfcChars text.data)

/-- The normalization sequence exactly as composed in `_run_file_pipeline`:
`common_char_replacements`, then `strip_diacritics`, then
`normalize_unicode`, then `normalize_whitespace`. -/
def pipelineNormalize (text : String) : String :=
  normalize_whitespace (normalize_unicode (strip_diacritics
    (common_char_replacements text)))

/-! ### Whitespace-collapse lemmas -/

theorem pySplitAux_token (t : List Char) (s acc : List Char)
    (ht : ∀ c ∈ t, isPySpace c = false) :
    pySplitAux (t ++ s) acc = pySplitAux s (t.reverse ++ acc) := by
  induction t generalizing acc with
  | nil => simp
  | cons c t ih =>
    have hc : isPySpace c = false := ht c (by simp)
    rw [List.cons_append, pySplitAux]
    simp only [hc, Bool.false_eq_true, if_false]
    rw [ih (c :: acc) (fun x hx => ht x (by simp [hx]))]
    simp [List.append_assoc]

theorem pySplitAux_tokens (s : List Char) :
    ∀ acc, (∀ c ∈ acc, isPySpace c = false) →
    ∀ t ∈ pySplitAux s acc, t ≠ [] ∧ ∀ c ∈ t, isPySpace c = false := by
  induction s with
  | nil =>
    intro acc hacc t ht
    rw [pySplitAux] at ht
    by_cases h : acc = []
    · simp [h] at ht
    · simp only [h, if_false] at ht
      rw [List.mem_singleton] at ht
      subst ht
      refine ⟨by simpa using h, ?_⟩
      intro c hc
      exact hacc c (List.mem_reverse.mp hc)
  | cons c cs ih =>
    intro acc hacc t ht
    rw [pySplitAux] at ht
    by_cases hsp : isPySpace c
    · simp only [hsp, if_true] at ht
      by_cases h : acc = []
      · simp only [h, if_true] at ht
        exact ih [] (by simp) t ht
      · simp only [h, if_false] at ht
        rw [List.mem_cons] at ht
        rcases ht with ht | ht
        · subst ht
          refine ⟨by simpa using h, ?_⟩
          intro x hx
          exact hacc x (List.mem_reverse.mp hx)
        · exact ih [] (by simp) t ht
    · simp only [hsp, Bool.not_eq_true, if_false] at ht
      refine ih (c :: acc) ?_ t ht
      intro x hx
      rcases List.mem_cons.mp hx with h | h
      · subst h; simpa using hsp
      · exact hacc x h

theorem pySplitAux_chars (s : List Char) :
    ∀ acc, ∀ t ∈ pySplitAux s acc, ∀ c ∈ t, c ∈ s ∨ c ∈ acc := by
  induction s with
  | nil =>
    intro acc t ht c hc
    rw [pySplitAux] at ht
    by_cases h : acc = []
    · simp [h] at ht
    · simp only [h, if_false, List.mem_singleton] at ht
      subst ht
      exact Or.inr (List.mem_reverse.mp hc)
  | cons c0 cs ih =>
    intro acc t ht c hc
    rw [pySplitAux] at ht
    by_cases hsp : isPySpace c0
    · simp only [hsp, if_true] at ht
      by_cases h : acc = []
      · simp only [h, if_true] at ht
        rcases ih [] t ht c hc with h2 | h2
        · exact Or.inl (by simp [h2])
        · simp at h2
      · simp only [h, if_false, List.mem_cons] at ht
        rcases ht with ht | ht
        · subst ht
          exact Or.inr (List.mem_reverse.mp hc)
        · rcases ih [] t ht c hc with h2 | h2
          · exact Or.inl (by simp [h2])
          · simp at h2
    · simp only [hsp, Bool.not_eq_true, if_false] at ht
      rcases ih (c0 :: acc) t ht c hc with h2 | h2
      · exact Or.inl (by simp [h2])
      · rcases List.mem_cons.mp h2 with h3 | h3
        · exact Or.inl (by simp [h3])
        · exact Or.inr h3

theorem spaceJoin_chars (ts : List (List Char)) :
    ∀ c ∈ spaceJoin ts, c = ' ' ∨ ∃ t ∈ ts, c ∈ t := by
  match ts with
  | [] => intro c hc; rw [spaceJoin] at hc; simp at hc
  | [t] =>
    intro c hc
    rw [spaceJoin] at hc
    exact Or.inr ⟨t, by simp, hc⟩
  | t :: t2 :: ts =>
    intro c hc
    rw [spaceJoin] at hc
    rcases List.mem_append.mp hc with h | h
    · exact Or.inr ⟨t, by simp, h⟩
    · rcases List.mem_cons.mp h with h2 | h2
      · exact Or.inl h2
      · rcases spaceJoin_chars (t2 :: ts) c h2 with h3 | h3
        · exact Or.inl h3
        · obtain ⟨u, hu, hcu⟩ := h3
          exact Or.inr ⟨u, by simp [List.mem_cons.mp hu], hcu⟩

theorem pySplit_spaceJoin (ts : List (List Char))
    (h : ∀ t ∈ ts, t ≠ [] ∧ ∀ c ∈ t, isPySpace c = false) :
    pySplit (spaceJoin ts) = ts := by
  match ts with
  | [] => rfl
  | [t] =>
    obtain ⟨hne, hfree⟩ := h t (by simp)
    rw [spaceJoin, pySplit]
    have := pySplitAux_token t [] [] hfree
    rw [List.append_nil, List.append_nil] at this
    rw [this, pySplitAux]
    simp [hne]
  | t :: t2 :: ts =>
    obtain ⟨hne, hfree⟩ := h t (by simp)
    rw [spaceJoin, pySplit]
    rw [pySplitAux_token t (' ' :: spaceJoin (t2 :: ts)) [] hfree, List.append_nil]
    rw [pySplitAux]
    have hsp : isPySpace ' ' = true := by decide
    simp only [hsp, if_true]
    have hne2 : t.reverse ≠ [] := by simpa using hne
    simp only [hne2, if_false, List.reverse_reverse]
    rw [show pySplitAux (spaceJoin (t2 :: ts)) [] = pySplit (spaceJoin (t2 :: ts)) from rfl]
    rw [pySplit_spaceJoin (t2 :: ts) (fun u hu => h u (by simp [List.mem_cons.mp hu]))]

/-! ### Character-level normalization lemmas -/

theorem commonCharReplacement_cases (c : Char) :
    commonCharReplacement c = '"' ∨ commonCharReplacement c = '-' ∨
      commonCharReplacement c = c := by
  unfold commonCharReplacement
  split_ifs <;> simp

theorem commonCharReplacement_idem (c : Char) :
    commonCharReplacement (commonCharReplacement c) = commonCharReplacement c := by
  rcases commonCharReplacement_cases c with h | h | h <;> rw [h]
  · decide
  · decide
  · exact h

theorem baseChar_cases (c : Char) :
    baseChar c ∈ (['a', 'e', 'i', 'o', 'u', 'n', 'c'] : List Char) ∨
      baseChar c = c := by
  unfold baseChar
  split_ifs <;> simp

theorem baseChar_idem (c : Char) : baseChar (baseChar c) = baseChar c := by
  rcases baseChar_cases c with h | h
  · simp only [List.mem_cons, List.not_mem_nil, or_false] at h
    rcases h with h | h | h | h | h | h | h <;> rw [h] <;> decide
  · rw [h, h]

theorem commonCharReplacement_baseChar (c : Char)
    (hc : commonCharReplacement c = c) :
    commonCharReplacement (baseChar c) = baseChar c := by
  rcases baseChar_cases c with h | h
  · simp only [List.mem_cons, List.not_mem_nil, or_false] at h
    rcases h with h | h | h | h | h | h | h <;> rw [h] <;> decide
  · rw [h]; exact hc

theorem isCombiningMark_baseChar (c : Char)
    (hc : isCombiningMark c = false) :
    isCombiningMark (baseChar c) = false := by
  rcases baseChar_cases c with h | h
  · simp only [List.mem_cons, List.not_mem_nil, or_false] at h
    rcases h with h | h | h | h | h | h | h <;> rw [h] <;> decide
  · rw [h]; exact hc

theorem composePair_none_of_noMark (c m : Char)
    (h : isCombiningMark m = false) : composePair c m = none := by
  unfold composePair
  split_ifs with h1 h2 h3 h4 h5 h6 h7 h8
  · exact absurd h (by rw [h1.2]; decide)
  · exact absurd h (by rw [h2.2]; decide)
  · exact absurd h (by rw [h3.2]; decide)
  · exact absurd h (by rw [h4.2]; decide)
  · exact absurd h (by rw [h5.2]; decide)
  · exact absurd h (by rw [h6.2]; decide)
  · exact absurd h (by rw [h7.2]; decide)
  · exact absurd h (by rw [h8.2]; decide)
  · rfl

theorem nfcAux_of_noMark (c : Char) (l : List Char)
    (h : ∀ x ∈ l, isCombiningMark x = false) : nfcAux c l = c :: l := by
  induction l generalizing c with
  | nil => rw [nfcAux]
  | cons m rest ih =>
    rw [nfcAux, composePair_none_of_noMark c m (h m (by simp))]
    simp only
    rw [ih m (fun x hx => h x (by simp [hx]))]

theorem nfcChars_of_noMark (l : List Char)
    (h : ∀ c ∈ l, isCombiningMark c = false) : nfcChars l = l := by
  match l with
  | [] => rfl
  | c :: rest =>
    rw [nfcChars]
    exact nfcAux_of_noMark c rest (fun x hx => h x (List.mem_cons_of_mem c hx))

theorem map_id_of_fix {f : Char → Char} (l : List Char)
    (h : ∀ c ∈ l, f c = c) : l.map f = l := by
  induction l with
  | nil => rfl
  | cons c cs ih =>
    rw [List.map_cons, h c (by simp), ih (fun x hx => h x (by simp [hx]))]

/-- The characters left after the first three normalization stages: fixed
under the character substitution, fixed under diacritic stripping, and not
combining marks. -/
def cleanChar (c : Char) : Prop :=
  commonCharReplacement c = c ∧ baseChar c = c ∧ isCombiningMark c = false

theorem cleanChar_space : cleanChar ' ' := by
  refine ⟨by decide, by decide, by decide⟩

theorem strip_stage_clean (l : List Char)
    (hc : ∀ c ∈ l, commonCharReplacement c = c) :
    ∀ c ∈ (l.filter (fun c => !isCombiningMark c)).map baseChar, cleanChar c := by
  intro c hm
  rw [List.mem_map] at hm
  obtain ⟨x, hx, rfl⟩ := hm
  have hxl : x ∈ l := List.mem_of_mem_filter hx
  have hxnm : isCombiningMark x = false := by
    have h2 := List.of_mem_filter hx
    simpa using h2
  exact ⟨commonCharReplacement_baseChar x (hc x hxl), baseChar_idem x,
    isCombiningMark_baseChar x hxnm⟩

/-- The normalization sequence on the code-point list, as composed in
`_run_file_pipeline`. -/
def pipelineNormalizeList (l : List Char) : List Char :=
  spaceJoin (pySplit (nfcChars
    (((l.map commonCharReplacement).filter (fun c => !isCombiningMark c)).map baseChar)))

theorem pipelineNormalizeList_on_clean (l2 : List Char)
    (h2 : ∀ c ∈ l2, cleanChar c) :
    pipelineNormalizeList (spaceJoin (pySplit l2)) = spaceJoin (pySplit l2) := by
  have htok : ∀ t ∈ pySplit l2, t ≠ [] ∧ ∀ c ∈ t, isPySpace c = false :=
    pySplitAux_tokens l2 [] (by simp)
  have hsclean : ∀ c ∈ spaceJoin (pySplit l2), cleanChar c := by
    intro c hc
    rcases spaceJoin_chars (pySplit l2) c hc with h | h
    · subst h; exact cleanChar_space
    · obtain ⟨t, ht, hct⟩ := h
      rcases pySplitAux_chars l2 [] t ht c hct with hx | hx
      · exact h2 c hx
      · simp at hx
  rw [pipelineNormalizeList]
  rw [map_id_of_fix _ (fun c h => (hsclean c h).1)]
  rw [List.filter_eq_self.mpr (fun a ha => by simp [(hsclean a ha).2.2])]
  rw [map_id_of_fix _ (fun c h => (hsclean c h).2.1)]
  rw [nfcChars_of_noMark _ (fun c h => (hsclean c h).2.2)]
  rw [pySplit_spaceJoin (pySplit l2) htok]

theorem pipelineNormalizeList_idem (l : List Char) :
    pipelineNormalizeList (pipelineNormalizeList l) = pipelineNormalizeList l := by
  have hclean2 : ∀ c ∈ ((l.map commonCharReplacement).filter
      (fun c => !isCombiningMark c)).map baseChar, cleanChar c := by
    refine strip_stage_clean (l.map commonCharReplacement) ?_
    intro c hc
    rw [List.mem_map] at hc
    obtain ⟨x, hx, rfl⟩ := hc
    exact commonCharReplacement_idem x
  have h3 : nfcChars (((l.map commonCharReplacement).filter
      (fun c => !isCombiningMark c)).map baseChar) =
      ((l.map commonCharReplacement).filter (fun c => !isCombiningMark c)).map baseChar :=
    nfcChars_of_noMark _ (fun c h => (hclean2 c h).2.2)
  have hfirst : pipelineNormalizeList l = spaceJoin (pySplit
      (((l.map commonCharReplacement).filter (fun c => !isCombiningMark c)).map baseChar)) := by
    rw [pipelineNormalizeList, h3]
  rw [hfirst]
  exact pipelineNormalizeList_on_clean _ hclean2

/-- C8: the composed text-normalization sequence of the pipeline — common
character substitution, diacritic stripping, Unicode NFC, whitespace
collapse — is idempotent on every input string, including empty and
pure-whitespace strings.  `normalize_whitespace` is the source function;
the first three stages are modelled from the spec because their
definitions are absent from the source tree. -/
theorem c8_normalization_idempotent (text : String) :
    pipelineNormalize (pipelineNormalize text) = pipelineNormalize text := by
  show String.mk (pipelineNormalizeList (pipelineNormalizeList text.data)) =
    String.mk (pipelineNormalizeList text.data)
  exact congrArg String.mk (pipelineNormalizeList_idem text.data)

/-! ## `FileLocation.local_filepath` (`db/models.py`) -/

/-- Python truthiness of an optional string column: `None` and the empty
string are falsy (`not self.file_server_directories`). -/
def pyFalsyStr : Option String → Bool
  | none => true
  | some s => s == ""

/-- `d.split("/")` on the code-point list, keeping empty components (they
are filtered away by `posixParts`). -/
def splitSlashAux : List Char → List Char → List (List Char)
  | [], acc => [acc.reverse]
  | c :: cs, acc =>
    if c = '/' then acc.reverse :: splitSlashAux cs []
    else splitSlashAux cs (c :: acc)

/-- The root part of `PurePosixPath`: a single leading slash (or three or
more) gives `/`, exactly two give the special root `//`. -/
def posixRoot : List Char → List String
  | '/' :: '/' :: '/' :: _ => ["/"]
  | '/' :: '/' :: _ => ["//"]
  | '/' :: _ => ["/"]
  | _ => []

/-- `PurePosixPath(d).parts`: the root part, then the slash-separated
components with empty strings and single dots dropped. -/
def posixParts (d : String) : List String :=
  posixRoot d.data ++
    ((splitSlashAux d.data []).map String.mk).filter (fun c => c != "" && c != ".")

/-- Whether a rendered path string starts with a slash. -/
def headIsSlash (s : String) : Bool :=
  match s.data with
  | '/' :: _ => true
  | _ => false

/-- Whether a rendered path string ends with a slash. -/
def lastIsSlash (s : String) : Bool :=
  match s.data.getLast? with
  | some '/' => true
  | _ => false

/-- One step of `Path.joinpath`: an absolute component resets the path to
that component, otherwise it is appended with a separator. -/
def joinComponent (p : String) (c : String) : String :=
  if headIsSlash c then c
  else if p = "" then c
  else if lastIsSlash p then p ++ c
  else p ++ "/" ++ c

/-- `Path(base).joinpath(*comps)` rendered as a string. -/
def joinPath (base : String) (comps : List String) : String :=
  comps.foldl joinComponent base

/-- `FileLocation` from `db/models.py`: the columns `local_filepath` reads,
plus the `_local_path` memo attribute (`none` models the attribute not yet
set, i.e. `hasattr` false).  `id`, `file_id` and the confirmation
timestamps are not read by `local_filepath` and are omitted. -/
structure FileLocation where
  file_server_directories : Option String
  filename : Option String
  localPathCache : Option String
deriving DecidableEq, Repr

/-- `FileLocation.local_filepath` from `db/models.py`: return `None` when
`file_server_directories` or `filename` is falsy; otherwise compute
`Path(server_mount_path).joinpath(*rel_parts, filename)` on the first call,
memoize it in `_local_path`, and return the memo on every later call.
Returns the result together with the (possibly updated) object state. -/
def local_filepath (loc : FileLocation) (server_mount_path : String) :
    Option String × FileLocation :=
  if pyFalsyStr loc.file_server_directories || pyFalsyStr loc.filename then
    (none, loc)
  else
    match loc.localPathCache with
    | some p => (some p, loc)
    | none =>
      let p := joinPath server_mount_path
        (posixParts (loc.file_server_directories.getD "") ++ [loc.filename.getD ""])
      (some p, { loc with localPathCache := some p })

/-- C9: `local_filepath` returns `None` when the directory string or
filename is empty or missing; otherwise the first call computes the join of
the mount path with the POSIX directory parts and the filename and caches
it on the object, and every subsequent call returns that cached path
unchanged even when given a different mount argument. -/
theorem c9_local_filepath_gate_and_cache (loc : FileLocation) (m m2 : String) :
    ((pyFalsyStr loc.file_server_directories || pyFalsyStr loc.filename) = true →
      local_filepath loc m = (none, loc)) ∧
    ((pyFalsyStr loc.file_server_directories || pyFalsyStr loc.filename) = false →
      loc.localPathCache = none →
      local_filepath loc m =
        (some (joinPath m (posixParts (loc.file_server_directories.getD "") ++
            [loc.filename.getD ""])),
         { loc with localPathCache := some (joinPath m
            (posixParts (loc.file_server_directories.getD "") ++
              [loc.filename.getD ""])) })) ∧
    (∀ p, (pyFalsyStr loc.file_server_directories || pyFalsyStr loc.filename) = false →
      loc.localPathCache = some p →
      local_filepath loc m2 = (some p, loc)) ∧
    ((pyFalsyStr loc.file_server_directories || pyFalsyStr loc.filename) = false →
      (local_filepath (local_filepath loc m).2 m2).1 = (local_filepath loc m).1) := by
  refine ⟨?_, ?_, ?_, ?_⟩
  · intro h
    rw [local_filepath, h]
    rfl
  · intro h hc
    rw [local_filepath, h]
    simp only [Bool.false_eq_true, if_false, hc]
  · intro p h hc
    rw [local_filepath, h]
    simp only [Bool.false_eq_true, if_false, hc]
  · intro h
    match hc : loc.localPathCache with
    | some p =>
      have h1 : local_filepath loc m = (some p, loc) := by
        rw [local_filepath, h]
        simp only [Bool.false_eq_true, if_false, hc]
      have h2 : local_filepath loc m2 = (some p, loc) := by
        rw [local_filepath, h]
        simp only [Bool.false_eq_true, if_false, hc]
      rw [h1, h2]
    | none =>
      have h1 : local_filepath loc m =
          (some (joinPath m (posixParts (loc.file_server_directories.getD "") ++
              [loc.filename.getD ""])),
           { loc with localPathCache := some (joinPath m
              (posixParts (loc.file_server_directories.getD "") ++
                [loc.filename.getD ""])) }) := by
        rw [local_filepath, h]
        simp only [Bool.false_eq_true, if_false, hc]
      rw [h1]
      rw [local_filepath]
      simp only
      have h2 : (pyFalsyStr ({ loc with localPathCache := some (joinPath m
          (posixParts (loc.file_server_directories.getD "") ++
            [loc.filename.getD ""])) } : FileLocation).file_server_directories ||
          pyFalsyStr ({ loc with localPathCache := some (joinPath m
          (posixParts (loc.file_server_directories.getD "") ++
            [loc.filename.getD ""])) } : FileLocation).filename) = false := h
      rw [h2]
      rfl

/-- Witness for C9 at concrete inputs: a location with directories
`projects/F7` and filename `a.pdf` joins to `/mnt/projects/F7/a.pdf` on
first call and keeps returning it for a different mount; a location with
an empty directory string yields `None`. -/
theorem c9_local_filepath_witness :
    local_filepath ⟨some "projects/F7", some "a.pdf", none⟩ "/mnt" =
      (some "/mnt/projects/F7/a.pdf",
       ⟨some "projects/F7", some "a.pdf", some "/mnt/projects/F7/a.pdf"⟩) ∧
    (local_filepath
        (local_filepath ⟨some "projects/F7", some "a.pdf", none⟩ "/mnt").2
        "/other").1 =
      (local_filepath ⟨some "projects/F7", some "a.pdf", none⟩ "/mnt").1 ∧
    local_filepath ⟨some "", some "a.pdf", none⟩ "/mnt" =
      (none, ⟨some "", some "a.pdf", none⟩) := by
  refine ⟨?_, ?_, ?_⟩
  · have h := (c9_local_filepath_gate_and_cache
      ⟨some "projects/F7", some "a.pdf", none⟩ "/mnt" "/other").2.1
      (by decide) rfl
    rw [h]
    decide
  · exact (c9_local_filepath_gate_and_cache
      ⟨some "projects/F7", some "a.pdf", none⟩ "/mnt" "/other").2.2.2 (by decide)
  · exact (c9_local_filepath_gate_and_cache
      ⟨some "", some "a.pdf", none⟩ "/mnt" "/other").1 (by decide)

/-! ## `PathPattern` exclusion policy (`db/models.py`) -/

/-- `PathPattern` from `db/models.py`.  The JSONB `metadata` column is
modelled by the one piece of it the spec discusses: an optional list of
context names (`metadataContexts`).  `is_excluded` in the source never
reads it.  `description` and the timestamps are not read and are
omitted. -/
structure PathPattern where
  pattern : String
  pattern_type : String
  treatment : String
  metadataContexts : Option (List String)
  enabled : Bool
deriving DecidableEq, Repr

/-- Lowercasing on the code-point list (`pattern_type.lower()`). -/
def lowerStr (s : String) : String :=
  String.mk (s.data.map Char.toLower)

/-- `get_active_patterns`: all enabled patterns, optionally filtered by
treatment (the grouping by `pattern_type` is applied at the use site). -/
def get_active_patterns (rules : List PathPattern) (treatment : Option String) :
    List PathPattern :=
  rules.filter (fun p =>
    p.enabled && (match treatment with
      | none => true
      | some t => p.treatment == t))

/-- `fnmatch.fnmatch` on POSIX (identity `normcase`), modelled for patterns
built from `*`, `?` and literal characters (no `[...]` classes appear in
the claims).  `*` matches any suffix split, `?` any single character. -/
def globMatch : List Char → List Char → Bool
  | [], s => s.isEmpty
  | '*' :: ps, s => (s.tails).any (fun t => globMatch ps t)
  | '?' :: _, [] => false
  | '?' :: ps, _ :: cs => globMatch ps cs
  | _ :: _, [] => false
  | p :: ps, c :: cs => p == c && globMatch ps cs

/-- Whether `pat` is a prefix of `hay` (helper for substring search). -/
def startsWithList : List Char → List Char → Bool
  | _, [] => true
  | [], _ :: _ => false
  | c :: cs, p :: ps => c == p && startsWithList cs ps

/-- `re.search(pattern, path)` modelled for literal patterns: substring
search (§4.3 of the spec: "regex rules use substring search against the
full path"). -/
def substrSearch (pat : List Char) : List Char → Bool
  | [] => startsWithList [] pat
  | c :: cs => startsWithList (c :: cs) pat || substrSearch pat cs

/-- `path.replace("\\", "/")`. -/
def normSlashes (l : List Char) : List Char :=
  l.map (fun c => if c = '\\' then '/' else c)

/-- `os.path.basename`: everything after the last slash. -/
def osBasename (l : List Char) : List Char :=
  (l.reverse.takeWhile (fun c => c ≠ '/')).reverse

/-- `PathPattern.is_excluded` from `db/models.py`: normalize slashes, take
the basename, fetch enabled patterns with treatment `exclude`, then match
directory rules against the full path, file rules against the basename and
regex rules against the full path.  The signature is
`is_excluded(cls, session, path)` — there is no context parameter, and
`metadataContexts` is never consulted.  (The source's invalid-regex skip
cannot arise in the literal-pattern regex model.) -/
def is_excluded (rules : List PathPattern) (path : String) : Bool :=
  let pathChars := normSlashes path.data
  let filename := osBasename pathChars
  let active := get_active_patterns rules (some "exclude")
  ((active.filter (fun p => lowerStr p.pattern_type == "directory")).any
      (fun p => globMatch p.pattern.data pathChars)) ||
  ((active.filter (fun p => lowerStr p.pattern_type == "file")).any
      (fun p => globMatch p.pattern.data filename)) ||
  ((active.filter (fun p => lowerStr p.pattern_type == "regex")).any
      (fun p => substrSearch p.pattern.data pathChars))

/-- The keyword parameters a call to `is_excluded` may bind: `session` and
`path` (after the bound `cls`). -/
def isExcludedParams : List String := ["session", "path"]

/-- Outcome of a Python call: a value, or an uncaught `TypeError`. -/
inductive PyCallResult (α : Type) where
  | ok (a : α)
  | typeError
deriving DecidableEq, Repr

/-- A call `PathPattern.is_excluded(session, path, **kwargs)` as executed by
the Python calling convention: a keyword argument that names no declared
parameter raises `TypeError` before the body runs. -/
def is_excluded_call (rules : List PathPattern) (path : String)
    (kwargs : List String) : PyCallResult Bool :=
  if kwargs.all (fun k => isExcludedParams.contains k) then
    .ok (is_excluded rules path)
  else .typeError

/-- C6: the claim requires context-scoped exclusion rules — a rule scoped
to the tagging context must not affect an embedding-context check, and a
rule with an absent or empty context set applies everywhere.  The source's
`is_excluded` has no context parameter at all: the pipeline's keyword call
`is_excluded(session, path, context="add_files_embedding")` raises
`TypeError`, and when called positionally every enabled exclude rule —
here one whose metadata scopes it to `add_files_tagging` — matches
regardless of any context, so tagging-scoped rules do affect every
check. -/
theorem c6_is_excluded_has_no_context_parameter :
    is_excluded_call
        [⟨"*/archive/*", "directory", "exclude", some ["add_files_tagging"], true⟩]
        "/mnt/archive/report.pdf" ["context"] = PyCallResult.typeError ∧
    is_excluded
        [⟨"*/archive/*", "directory", "exclude", some ["add_files_tagging"], true⟩]
        "/mnt/archive/report.pdf" = true ∧
    is_excluded
        [⟨"*/archive/*", "directory", "exclude", some ["add_files_tagging"], true⟩]
        "/mnt/archive/report.pdf" =
      is_excluded
        [⟨"*/archive/*", "directory", "exclude", some [], true⟩]
        "/mnt/archive/report.pdf" := by
  decide

/-! ## Pipeline loop (`_run_file_pipeline` in `pipeline/add_files_pipeline.py`)

The loop body is modelled per file over an oracle record (`FileCtx`) giving
the outcome of each external effect — locator, exclusion checks, copy,
extraction, embedding, commit, labeling — as a value or a raised Python
exception.  The observable behaviour (log calls, the embedding-capability
call, the committed Content row, the labeling call) is returned as an event
trace. -/

/-- A raised Python exception (the message is irrelevant to control flow). -/
inductive PyExc where
  | exc (msg : String)
deriving DecidableEq, Repr

/-- Observable per-file events of `_run_file_pipeline`, in program order. -/
inductive PipeEvent where
  | warnNoLocations
  | warnNotFound
  | infoSkipExcluded
  | warnExclCheckFailed
  | encodeCalled (text : String)
  | contentAdded (file_hash : String) (source_text : String) (text_length : Nat)
  | infoEmbedded
  | warnEmbeddingFailed
  | warnTextTooShort
  | infoSkipTagging
  | labelApplied
  | errorLogged
deriving DecidableEq, Repr

/-- Oracle for one file's external effects inside the loop body.
`located` is the locator result (`None`/empty path or filename collapse to
`none`); `exclCheck` is the outcome of
`PathPattern.is_excluded(session, path, context=...)` per context name;
the remaining fields are the outcomes of copy, extraction (selected
extractor or Tika fallback), `encode`, the Content `add`+`commit`, and
`labeling_fn`. -/
structure FileCtx where
  fileHash : String
  hasLocations : Bool
  located : Option (String × String)
  exclCheck : String → Except PyExc Bool
  copyRes : Except PyExc Unit
  extractRes : Except PyExc String
  encodeRes : Except PyExc (List (List Int))
  commitRes : Except PyExc Unit
  labelRes : Except PyExc Unit

/-- The `try` block of the loop body: copy, extract, gate on raw text
length, normalize, embed, persist, tagging-exclusion check, label.  Any
raised exception reaches the per-file `except Exception` handler, which
logs an error (`errorLogged`) and nothing more.  A Content row is recorded
(`contentAdded`) only when the commit succeeds; a commit failure persists
nothing. -/
def fileTryBlock (applyExclusions ppAvailable : Bool) (threshold : Nat)
    (ctx : FileCtx) : List PipeEvent :=
  match ctx.copyRes with
  | .error _ => [.errorLogged]
  | .ok _ =>
    match ctx.extractRes with
    | .error _ => [.errorLogged]
    | .ok text =>
      if text ≠ "" ∧ threshold ≤ text.length then
        let ntext := pipelineNormalize text
        match ctx.encodeRes with
        | .error _ => [.encodeCalled ntext, .errorLogged]
        | .ok emb =>
          match emb.head? with
          | none => [.encodeCalled ntext, .warnEmbeddingFailed]
          | some _vec =>
            match ctx.commitRes with
            | .error _ => [.encodeCalled ntext, .errorLogged]
            | .ok _ =>
              let base := [.encodeCalled ntext,
                .contentAdded ctx.fileHash ntext ntext.length, .infoEmbedded]
              if applyExclusions && ppAvailable then
                match ctx.exclCheck "add_files_tagging" with
                | .error _ => base ++ [.errorLogged]
                | .ok true => base ++ [.infoSkipTagging]
                | .ok false =>
                  match ctx.labelRes with
                  | .error _ => base ++ [.errorLogged]
                  | .ok _ => base ++ [.labelApplied]
              else
                match ctx.labelRes with
                | .error _ => base ++ [.errorLogged]
                | .ok _ => base ++ [.labelApplied]
      else [.warnTextTooShort]

/-- One iteration of the `for` loop of `_run_file_pipeline`: skip when the
file has no locations or the locator resolves nothing; run the
embedding-context exclusion check inside its own `try` — a `True` result
skips the file, a raised exception only logs a warning and falls through
to the `try` block. -/
def processFile (applyExclusions ppAvailable : Bool) (threshold : Nat)
    (ctx : FileCtx) : List PipeEvent :=
  if !ctx.hasLocations then [.warnNoLocations]
  else
    match ctx.located with
    | none => [.warnNotFound]
    | some _ =>
      if applyExclusions && ppAvailable then
        match ctx.exclCheck "add_files_embedding" with
        | .ok true => [.infoSkipExcluded]
        | .ok false => fileTryBlock applyExclusions ppAvailable threshold ctx
        | .error _ =>
          .warnExclCheckFailed :: fileTryBlock applyExclusions ppAvailable threshold ctx
      else fileTryBlock applyExclusions ppAvailable threshold ctx

/-- The whole batch loop: files processed in order, each file's events
appended; no iteration can abort the loop. -/
def runFilePipeline (applyExclusions ppAvailable : Bool) (threshold : Nat) :
    List FileCtx → List PipeEvent
  | [] => []
  | ctx :: rest =>
    processFile applyExclusions ppAvailable threshold ctx ++
      runFilePipeline applyExclusions ppAvailable threshold rest

/-- `DEFAULT_TEXT_LENGTH_THRESHOLD` from `pipeline/add_files_pipeline.py`. -/
def DEFAULT_TEXT_LENGTH_THRESHOLD : Nat := 250

/-! ### Pipeline loop lemmas -/

theorem processFile_cases (ae pp : Bool) (th : Nat) (ctx : FileCtx) :
    processFile ae pp th ctx = [.warnNoLocations] ∨
    processFile ae pp th ctx = [.warnNotFound] ∨
    processFile ae pp th ctx = [.infoSkipExcluded] ∨
    processFile ae pp th ctx = fileTryBlock ae pp th ctx ∨
    processFile ae pp th ctx =
      .warnExclCheckFailed :: fileTryBlock ae pp th ctx := by
  rw [processFile]
  by_cases h1 : ctx.hasLocations
  · simp only [h1, Bool.not_true, Bool.false_eq_true, if_false]
    match h2 : ctx.located with
    | none => simp
    | some x =>
      simp only
      by_cases h3 : ae && pp
      · simp only [h3, if_true]
        match h4 : ctx.exclCheck "add_files_embedding" with
        | .ok true => simp
        | .ok false => simp
        | .error e => simp
      · simp [h3]
  · simp only [Bool.not_eq_true] at h1
    simp [h1]

theorem fileTryBlock_short (ae pp : Bool) (th : Nat) (ctx : FileCtx) (text : String)
    (hex : ctx.extractRes = .ok text) (hshort : text = "" ∨ text.length < th) :
    fileTryBlock ae pp th ctx = [.errorLogged] ∨
    fileTryBlock ae pp th ctx = [.warnTextTooShort] := by
  rw [fileTryBlock]
  match hc : ctx.copyRes with
  | .error e => simp
  | .ok u =>
    simp only [hex]
    have hgate : ¬(text ≠ "" ∧ th ≤ text.length) := by
      rcases hshort with h | h
      · exact fun hg => hg.1 h
      · exact fun hg => absurd hg.2 (by omega)
    simp [hgate]

theorem contentAdded_implies_success (ae pp : Bool) (th : Nat) (ctx : FileCtx)
    (h s : String) (n : Nat)
    (hmem : PipeEvent.contentAdded h s n ∈ fileTryBlock ae pp th ctx) :
    ∃ text emb, ctx.copyRes = .ok () ∧ ctx.extractRes = .ok text ∧
      ctx.encodeRes = .ok emb ∧ emb.head?.isSome ∧ ctx.commitRes = .ok () := by
  rw [fileTryBlock] at hmem
  cases hc : ctx.copyRes with
  | error e => rw [hc] at hmem; simp at hmem
  | ok u =>
    rw [hc] at hmem
    cases hx : ctx.extractRes with
    | error e => rw [hx] at hmem; simp at hmem
    | ok text =>
      rw [hx] at hmem
      simp only at hmem
      by_cases hgate : text ≠ "" ∧ th ≤ text.length
      · rw [if_pos hgate] at hmem
        cases he : ctx.encodeRes with
        | error e => rw [he] at hmem; simp at hmem
        | ok emb =>
          rw [he] at hmem
          simp only at hmem
          cases hh : emb.head? with
          | none => rw [hh] at hmem; simp at hmem
          | some v =>
            rw [hh] at hmem
            simp only at hmem
            cases hcm : ctx.commitRes with
            | error e => rw [hcm] at hmem; simp at hmem
            | ok u2 =>
              refine ⟨text, emb, ?_, rfl, rfl, by rw [hh]; rfl, ?_⟩
              · cases u; rfl
              · cases u2; rfl
      · rw [if_neg hgate] at hmem
        simp at hmem

theorem fileTryBlock_label_error (ae pp : Bool) (th : Nat) (ctx : FileCtx)
    (e : PyExc) (text : String) (emb : List (List Int)) (v : List Int)
    (hcp : ctx.copyRes = .ok ()) (hex : ctx.extractRes = .ok text)
    (hne : text ≠ "") (hlen : th ≤ text.length)
    (hen : ctx.encodeRes = .ok emb) (hhd : emb.head? = some v)
    (hcm : ctx.commitRes = .ok ())
    (hexcl : ctx.exclCheck "add_files_tagging" = .ok false)
    (hlab : ctx.labelRes = .error e) :
    fileTryBlock ae pp th ctx =
      [.encodeCalled (pipelineNormalize text),
       .contentAdded ctx.fileHash (pipelineNormalize text)
         (pipelineNormalize text).length,
       .infoEmbedded, .errorLogged] := by
  rw [fileTryBlock, hcp, hex]
  simp only
  rw [if_pos ⟨hne, hlen⟩, hen]
  simp only
  rw [hhd]
  simp only
  rw [hcm]
  simp only
  by_cases hae : (ae && pp) = true
  · simp only [hae, if_true]
    rw [hexcl]
    simp only
    rw [hlab]
    rfl
  · simp only [hae, Bool.false_eq_true, if_false]
    rw [hlab]
    rfl

/-- C1 (amended): any per-file exception raised inside the loop body —
copy, extractor selection, extraction, normalization, embedding, the
Content commit, the tagging-exclusion check or labeling — is caught by the
per-file handler and logged, and the batch continues with the next file
(first conjunct: the loop is a plain concatenation of per-file traces).  A
Content row appears in a file's trace only when copy, extraction, the
length gate, embedding and the commit all succeeded (second conjunct), so
a file failing before the commit is left with no Content row; but a
labeling exception strikes after the commit, and the committed Content row
remains in the trace alongside the logged error (third conjunct) — not
"no Content row" as the claim states. -/
theorem c1_exception_isolation_amended (ae pp : Bool) (th : Nat)
    (ctx : FileCtx) (rest : List FileCtx) :
    (runFilePipeline ae pp th (ctx :: rest) =
      processFile ae pp th ctx ++ runFilePipeline ae pp th rest) ∧
    (∀ h s n, PipeEvent.contentAdded h s n ∈ processFile ae pp th ctx →
      ∃ text emb, ctx.copyRes = .ok () ∧ ctx.extractRes = .ok text ∧
        ctx.encodeRes = .ok emb ∧ emb.head?.isSome ∧ ctx.commitRes = .ok ()) ∧
    (∀ e text emb v, ctx.copyRes = .ok () → ctx.extractRes = .ok text →
      text ≠ "" → th ≤ text.length → ctx.encodeRes = .ok emb →
      emb.head? = some v → ctx.commitRes = .ok () →
      ctx.exclCheck "add_files_tagging" = .ok false →
      ctx.labelRes = .error e →
      PipeEvent.errorLogged ∈ fileTryBlock ae pp th ctx ∧
      PipeEvent.contentAdded ctx.fileHash (pipelineNormalize text)
          (pipelineNormalize text).length ∈ fileTryBlock ae pp th ctx) := by
  refine ⟨rfl, ?_, ?_⟩
  · intro h s n hmem
    rcases processFile_cases ae pp th ctx with hp | hp | hp | hp | hp <;>
      rw [hp] at hmem
    · simp at hmem
    · simp at hmem
    · simp at hmem
    · exact contentAdded_implies_success ae pp th ctx h s n hmem
    · rcases List.mem_cons.mp hmem with h2 | h2
      · exact absurd h2 (by simp)
      · exact contentAdded_implies_success ae pp th ctx h s n h2
  · intro e text emb v hcp hex hne hlen hen hhd hcm hexcl hlab
    rw [fileTryBlock_label_error ae pp th ctx e text emb v hcp hex hne hlen
      hen hhd hcm hexcl hlab]
    exact ⟨by simp, by simp⟩

/-- The extracted text of the C1 counterexample: 260 copies of `a`,
comfortably above the default threshold of 250. -/
def c1FailText : String := String.mk (List.replicate 260 'a')

/-- The C1 counterexample file: every step succeeds except `labeling_fn`,
which raises. -/
def c1LabelErrCtx : FileCtx :=
  ⟨"deadbeef1", true, some ("/mnt/proj/F7/b.pdf", "b.pdf"),
   fun _ => Except.ok false, Except.ok (), Except.ok c1FailText,
   Except.ok [[1]], Except.ok (), Except.error (.exc "boom")⟩

set_option maxRecDepth 40000 in
/-- C1 counterexample: a file whose labeling step raises has its exception
caught and logged (`errorLogged` in the trace), yet its Content row was
committed before the exception and stays — refuting the claim that a
file failing in steps (d)–(g) is always left with no Content row. -/
theorem c1_post_commit_exception_keeps_content_row :
    PipeEvent.errorLogged ∈
      processFile true true DEFAULT_TEXT_LENGTH_THRESHOLD c1LabelErrCtx ∧
    PipeEvent.contentAdded "deadbeef1" (pipelineNormalize c1FailText)
        (pipelineNormalize c1FailText).length ∈
      processFile true true DEFAULT_TEXT_LENGTH_THRESHOLD c1LabelErrCtx := by
  decide

set_option maxRecDepth 40000 in
/-- Witness for C1 (amended) at the concrete failing file. -/
theorem c1_exception_isolation_witness :
    (runFilePipeline true true DEFAULT_TEXT_LENGTH_THRESHOLD [c1LabelErrCtx] =
      processFile true true DEFAULT_TEXT_LENGTH_THRESHOLD c1LabelErrCtx ++
        runFilePipeline true true DEFAULT_TEXT_LENGTH_THRESHOLD []) ∧
    (PipeEvent.errorLogged ∈
        fileTryBlock true true DEFAULT_TEXT_LENGTH_THRESHOLD c1LabelErrCtx ∧
      PipeEvent.contentAdded c1LabelErrCtx.fileHash (pipelineNormalize c1FailText)
          (pipelineNormalize c1FailText).length ∈
        fileTryBlock true true DEFAULT_TEXT_LENGTH_THRESHOLD c1LabelErrCtx) :=
  ⟨(c1_exception_isolation_amended true true DEFAULT_TEXT_LENGTH_THRESHOLD
      c1LabelErrCtx []).1,
   (c1_exception_isolation_amended true true DEFAULT_TEXT_LENGTH_THRESHOLD
      c1LabelErrCtx []).2.2 (.exc "boom") c1FailText [[1]] [1]
      rfl rfl (by decide) (by decide) rfl rfl rfl rfl rfl⟩

/-- C5: a file whose extracted text is empty or shorter than the configured
threshold never reaches the embedding capability (no `encode` call) and
never gets a Content row, whatever the exclusion flags are. -/
theorem c5_short_text_never_embedded_never_persisted
    (ae pp : Bool) (th : Nat) (ctx : FileCtx) (text : String)
    (hex : ctx.extractRes = .ok text)
    (hshort : text = "" ∨ text.length < th) :
    (∀ t, PipeEvent.encodeCalled t ∉ processFile ae pp th ctx) ∧
    (∀ h s n, PipeEvent.contentAdded h s n ∉ processFile ae pp th ctx) := by
  have hf := fileTryBlock_short ae pp th ctx text hex hshort
  have hp := processFile_cases ae pp th ctx
  constructor
  · intro t hmem
    rcases hp with h | h | h | h | h <;> rw [h] at hmem
    · simp at hmem
    · simp at hmem
    · simp at hmem
    · rcases hf with h2 | h2 <;> rw [h2] at hmem <;> simp at hmem
    · rcases List.mem_cons.mp hmem with h2 | h2
      · exact absurd h2 (by simp)
      · rcases hf with h3 | h3 <;> rw [h3] at h2 <;> simp at h2
  · intro hh ss nn hmem
    rcases hp with h | h | h | h | h <;> rw [h] at hmem
    · simp at hmem
    · simp at hmem
    · simp at hmem
    · rcases hf with h2 | h2 <;> rw [h2] at hmem <;> simp at hmem
    · rcases List.mem_cons.mp hmem with h2 | h2
      · exact absurd h2 (by simp)
      · rcases hf with h3 | h3 <;> rw [h3] at h2 <;> simp at h2

/-- The C5 witness file: extraction succeeds with a 4-character text. -/
def c5ShortTextCtx : FileCtx :=
  ⟨"deadbeef5", true, some ("/mnt/proj/F7/s.pdf", "s.pdf"),
   fun _ => Except.ok false, Except.ok (), Except.ok "tiny",
   Except.ok [[1]], Except.ok (), Except.ok ()⟩

/-- Witness for C5 at the concrete short-text file and the default
threshold of 250. -/
theorem c5_short_text_witness :
    (∀ t, PipeEvent.encodeCalled t ∉
      processFile true true DEFAULT_TEXT_LENGTH_THRESHOLD c5ShortTextCtx) ∧
    (∀ h s n, PipeEvent.contentAdded h s n ∉
      processFile true true DEFAULT_TEXT_LENGTH_THRESHOLD c5ShortTextCtx) :=
  c5_short_text_never_embedded_never_persisted true true
    DEFAULT_TEXT_LENGTH_THRESHOLD c5ShortTextCtx "tiny" rfl
    (Or.inr (by decide))

/-- C10: when the embedding-context exclusion check itself raises, the loop
logs a warning and still processes the file — the trace is the warning
followed by the full try-block trace (copy, extraction, embedding,
persistence, labeling), not the exclusion skip. -/
theorem c10_embedding_exclusion_check_fails_open (th : Nat) (ctx : FileCtx)
    (e : PyExc) (pf : String × String)
    (h1 : ctx.hasLocations = true) (h2 : ctx.located = some pf)
    (h3 : ctx.exclCheck "add_files_embedding" = .error e) :
    processFile true true th ctx =
      PipeEvent.warnExclCheckFailed :: fileTryBlock true true th ctx ∧
    processFile true true th ctx ≠ [PipeEvent.infoSkipExcluded] := by
  have heq : processFile true true th ctx =
      PipeEvent.warnExclCheckFailed :: fileTryBlock true true th ctx := by
    rw [processFile, h1]
    simp only [Bool.not_true, Bool.false_eq_true, if_false]
    rw [h2]
    simp only [Bool.and_self, if_true]
    rw [h3]
  refine ⟨heq, ?_⟩
  rw [heq]
  intro hcontra
  have h4 : PipeEvent.warnExclCheckFailed = PipeEvent.infoSkipExcluded :=
    (List.cons.injEq _ _ _ _ ▸ hcontra).1
  exact absurd h4 (by decide)

/-- The C10 witness file: the embedding-context exclusion check raises (as
it does in the source for every file, `is_excluded` accepting no `context`
keyword), everything else succeeds. -/
def c10ExclErrCtx : FileCtx :=
  ⟨"deadbeef10", true, some ("/mnt/proj/F7/e.pdf", "e.pdf"),
   fun c => if c = "add_files_embedding" then Except.error (.exc "TypeError")
     else Except.ok false,
   Except.ok (), Except.ok c1FailText, Except.ok [[1]], Except.ok (),
   Except.ok ()⟩

/-- Witness for C10 at the concrete file. -/
theorem c10_fails_open_witness :
    processFile true true DEFAULT_TEXT_LENGTH_THRESHOLD c10ExclErrCtx =
      PipeEvent.warnExclCheckFailed ::
        fileTryBlock true true DEFAULT_TEXT_LENGTH_THRESHOLD c10ExclErrCtx ∧
    processFile true true DEFAULT_TEXT_LENGTH_THRESHOLD c10ExclErrCtx ≠
      [PipeEvent.infoSkipExcluded] :=
  c10_embedding_exclusion_check_fails_open DEFAULT_TEXT_LENGTH_THRESHOLD
    c10ExclErrCtx (.exc "TypeError") ("/mnt/proj/F7/e.pdf", "e.pdf")
    rfl rfl rfl
